import Mathlib

set_option linter.unusedVariables false

/-!
Verification development for the Ratchet_Robustness repository
(src/fitness_landscape.py, src/wright_fisher.py, src/main.py).

The repository simulates a Wright-Fisher process on three fitness
landscape shapes.  The embedding below externalizes randomness: the
per-newborn random draws that numpy produces inside each one-generation
update function are passed in as explicit lists (one entry per newborn,
so the population size `n` of the source corresponds to the length of
the draw list), and the support of each numpy sampler is modelled as a
predicate.  numpy array indexing (negative indices wrap, indices out of
range after wrapping raise IndexError) is modelled by `npIndex`, and a
statement that raises is modelled as `Option.none` / `Except.error`.
Machine floats are modelled as exact rationals, plus the `NFloat` type
where NaN/inf propagation matters; the real-valued fitness formula uses
`Real.exp` and `Real.rpow`.
-/

/-- The random draws belonging to one newborn in
`simple_landscape_wright_fisher` / `adjacent_landscape_wright_fisher`:
`newborn` is the bin index drawn by `np.random.choice`, `mut_ben` and
`mut_del` are the Poisson draws for beneficial and deleterious
mutation counts. -/
structure Draw where
  newborn : Nat
  mut_ben : Nat
  mut_del : Nat

/-- The random draws belonging to one newborn in
`hybrid_landscape_wright_fisher`: as in `Draw`, plus `coin`, the result
of `np.random.binomial(1, p_r) == 1` used only by the peak branch. -/
structure HDraw where
  newborn : Nat
  mut_ben : Nat
  mut_del : Nat
  coin : Bool

/-- Python/numpy index resolution for a 1-d array of length `len`:
an index in `[0, len)` is used as is, an index in `[-len, 0)` wraps
around to `idx + len`, and anything else raises IndexError (`none`). -/
def npIndex (len : Nat) (idx : Int) : Option Nat :=
  if 0 ≤ idx ∧ idx < (len : Int) then some idx.toNat
  else if -(len : Int) ≤ idx ∧ idx < 0 then some (idx + (len : Int)).toNat
  else none

/-- The statement `counts_next[idx] += 1` on a numpy int array,
with Python index semantics (`npIndex`). -/
def npIncr (v : List Nat) (idx : Int) : Option (List Nat) :=
  (npIndex v.length idx).map (fun i => v.set i (v.getD i 0 + 1))

/-- The numpy call `np.clip(x, a_min=lo, a_max=hi)`. -/
def np_clip (x lo hi : Int) : Int := min hi (max x lo)

/-- Loop body of `simple_landscape_wright_fisher` (src/wright_fisher.py,
lines 59-64): `counts_next[np.clip(newborn[i] - mut_ben[i] + mut_del[i],
a_min=0, a_max=l)] += 1`. -/
def simpleStep (l : Nat) (acc : Option (List Nat)) (d : Draw) : Option (List Nat) :=
  acc.bind (fun v =>
    npIncr v (np_clip ((d.newborn : Int) - (d.mut_ben : Int) + (d.mut_del : Int)) 0 (l : Int)))

/-- The function `simple_landscape_wright_fisher` (src/wright_fisher.py, lines 42-65)
with the random draws passed in explicitly; `counts_next` starts as
`np.zeros(l + 1, dtype=int)` and the loop over the `n` newborns is a
fold over the draw list. -/
def simple_landscape_wright_fisher (l : Nat) (draws : List Draw) : Option (List Nat) :=
  draws.foldl (simpleStep l) (some (List.replicate (l + 1) 0))

/-- Loop body of `adjacent_landscape_wright_fisher` (src/wright_fisher.py,
lines 85-100), transcribed branch for branch from the source. -/
def adjacentStep (l_l l_r : Nat) (acc : Option (List Nat)) (d : Draw) : Option (List Nat) :=
  acc.bind (fun v =>
    if d.newborn ≤ l_l then
      -- Within the range of the left landscape
      let m : Int := (d.newborn : Int) - (d.mut_ben : Int) + (d.mut_del : Int)
      if (l_l : Int) < m then
        -- Across the valley
        npIncr v ((l_l : Int) + 1)
      else
        npIncr v (max 0 m)
    else
      -- Within the range of the right landscape
      let m : Int := (d.newborn : Int) + (d.mut_ben : Int) - (d.mut_del : Int)
      if m ≤ (l_l : Int) then
        -- Across the valley
        npIncr v (l_l : Int)
      else
        npIncr v (min ((l_l : Int) + (l_r : Int) + 1) m))

/-- The function `adjacent_landscape_wright_fisher` (src/wright_fisher.py, lines
67-101): `counts_next` starts as `np.zeros(l_l + l_r + 2, dtype=int)`
and the loop over the `n` newborns is a fold over the draw list. -/
def adjacent_landscape_wright_fisher (l_l l_r : Nat) (draws : List Draw) : Option (List Nat) :=
  draws.foldl (adjacentStep l_l l_r) (some (List.replicate (l_l + l_r + 2) 0))

/-- Loop body of `hybrid_landscape_wright_fisher` (src/wright_fisher.py,
lines 121-136), transcribed branch for branch from the source; the
`np.random.binomial(1, p_r) == 1` draw of the peak branch is `d.coin`. -/
def hybridStep (l_l l_r : Nat) (acc : Option (List Nat)) (d : HDraw) : Option (List Nat) :=
  acc.bind (fun v =>
    if d.newborn < l_l then
      -- Within the range of the left landscape and off the peak
      let m : Int := (d.newborn : Int) + (d.mut_ben : Int) - (d.mut_del : Int)
      npIncr v (max 0 (min (l_l : Int) m))
    else if l_l < d.newborn then
      -- Within the range of the right landscape and off the peak
      let m : Int := (d.newborn : Int) - (d.mut_ben : Int) + (d.mut_del : Int)
      npIncr v (min ((l_l : Int) + (l_r : Int)) (max (l_l : Int) m))
    else
      -- At the peak
      let m : Int := max 0 ((d.mut_del : Int) - (d.mut_ben : Int))
      npIncr v (if d.coin then (l_l : Int) + m else (l_l : Int) - m))

/-- The function `hybrid_landscape_wright_fisher` (src/wright_fisher.py, lines
103-137): `counts_next` starts as `np.zeros(l_l + l_r + 1, dtype=int)`
and the loop over the `n` newborns is a fold over the draw list. -/
def hybrid_landscape_wright_fisher (l_l l_r : Nat) (draws : List HDraw) : Option (List Nat) :=
  draws.foldl (hybridStep l_l l_r) (some (List.replicate (l_l + l_r + 1) 0))


/-- Net deleterious displacement used by the peak branch of
`hybrid_landscape_wright_fisher`: `m = max(0, mut_del[i] - mut_ben[i])`. -/
def peakM (d : HDraw) : Int := max 0 ((d.mut_del : Int) - (d.mut_ben : Int))

/-- Placement rule of the simple update as worded by the spec (section 4.3):
"new bin = clamp(newborn_bin − mut_ben + mut_del, 0, L)". -/
def simplePlaceSpec (l : Nat) (d : Draw) : Int :=
  max 0 (min (l : Int) ((d.newborn : Int) - (d.mut_ben : Int) + (d.mut_del : Int)))

/-- Placement rule of the adjacent update as worded by the spec (section
4.4): left range (bin ≤ L_l) computes m = bin − mut_ben + mut_del and
lands at exactly L_l+1 when m > L_l, else at max(0, m); right range
computes m = bin + mut_ben − mut_del and lands at exactly L_l when
m ≤ L_l, else at min(L_l+L_r+1, m). -/
def adjacentPlaceSpec (l_l l_r : Nat) (d : Draw) : Int :=
  if d.newborn ≤ l_l then
    let m : Int := (d.newborn : Int) - (d.mut_ben : Int) + (d.mut_del : Int)
    if (l_l : Int) < m then (l_l : Int) + 1 else max 0 m
  else
    let m : Int := (d.newborn : Int) + (d.mut_ben : Int) - (d.mut_del : Int)
    if m ≤ (l_l : Int) then (l_l : Int) else min ((l_l : Int) + (l_r : Int) + 1) m

/-- Placement rule for a newborn exactly at the hybrid peak, as worded by
the spec (section 4.5): displacement m = max(0, mut_del − mut_ben), then
bin L_l+m on coin success and bin L_l−m on failure, with no clamping
applied to the resulting index. -/
def hybridPeakSpec (l_l : Nat) (d : HDraw) : Int :=
  if d.coin then (l_l : Int) + peakM d else (l_l : Int) - peakM d

/-- IEEE-754 double values as they arise in this code: exact rational
values plus the non-finite results that division can produce (rounding
is not modelled; no claim here depends on it). -/
inductive NFloat where
  | nan : NFloat
  | inf : NFloat
  | neginf : NFloat
  | val : Rat → NFloat
deriving DecidableEq

/-- IEEE floating-point division on the values of `NFloat.val`:
division by zero yields NaN for a zero numerator and ±inf otherwise. -/
def fdiv (a b : Rat) : NFloat :=
  if b = 0 then
    if a = 0 then NFloat.nan else if 0 < a then NFloat.inf else NFloat.neginf
  else NFloat.val (a / b)

/-- The line `fitness_mass = counts * fitness` in `_generate_newborn_and_mutation`
(src/wright_fisher.py, line 34). -/
def fitness_mass (counts fitness : List Rat) : List Rat :=
  List.zipWith (fun c f => c * f) counts fitness

/-- The line `fitness_prob = fitness_mass / np.sum(fitness_mass)` in
`_generate_newborn_and_mutation` (src/wright_fisher.py, line 35); this is
the whole deterministic content of the helper, its remaining lines being
the random draws which are externalized.  The source performs no check on
the total mass, so a zero total turns every entry into 0/0 = NaN. -/
def fitness_prob (counts fitness : List Rat) : List NFloat :=
  (fitness_mass counts fitness).map (fun mss => fdiv mss (fitness_mass counts fitness).sum)

/-- Cast of an integer bin-count vector to the float vector numpy forms
when multiplying it with the float fitness vector. -/
def countsQ (counts : List Nat) : List Rat := counts.map (fun c => ((c : Nat) : Rat))

/-- Modelled support of `np.random.choice(l + 1, size=n, p=fitness_prob)`
for one draw: a bin can be drawn exactly when its probability entry is a
positive real number. -/
def choiceSupport (probs : List NFloat) (k : Nat) : Prop :=
  ∃ q : Rat, probs[k]? = some (NFloat.val q) ∧ 0 < q

/-- Modelled support of one draw of `np.random.poisson(lam)`: a negative
rate raises (empty support), rate zero yields the constant 0, a positive
rate yields any natural number. -/
def poissonSupport (lam : Rat) (k : Nat) : Prop :=
  0 < lam ∨ (lam = 0 ∧ k = 0)

/-- Modelled support of `np.random.binomial(1, p_r) == 1`: the draw can
be `true` only when `p_r > 0` and `false` only when `p_r < 1`. -/
def binomialSupport (p : Rat) (b : Bool) : Prop :=
  (b = true → 0 < p) ∧ (b = false → p < 1)

/-- The numpy call `np.mean(xs)` over exact rationals (NaN for an empty list is not
modelled; the claims only evaluate it on the guarded branch). -/
def npMean (xs : List Rat) : Rat := xs.sum / (xs.length : Rat)

/-- The numpy call `np.var(xs)`: mean squared deviation from the mean. -/
def npVar (xs : List Rat) : Rat :=
  (xs.map (fun x => (x - npMean xs) ^ 2)).sum / (xs.length : Rat)

/-- The expression `np.repeat(np.arange(start, start + fitness.shape[0]), counts)` in
`_logger` (src/main.py, line 22). -/
def counts_pop (counts : List Nat) (len start : Nat) : List Rat :=
  ((List.range len).zip counts).flatMap (fun p => List.replicate p.2 (((p.1 + start : Nat)) : Rat))

/-- The expression `np.repeat(fitness, counts)` in `_logger` (src/main.py, line 23). -/
def fitness_pop (fitness : List Rat) (counts : List Nat) : List Rat :=
  (fitness.zip counts).flatMap (fun p => List.replicate p.2 p.1)

/-- The statistics computed by `_logger` (src/main.py, lines 11-30) for
one generation: the pair of (mean, variance) rows written into
`counts_logger` and `fitness_logger`.  When `np.sum(counts) > 0` the
population expansions are averaged; otherwise both rows are set to
`(0.0, 0.0)`. -/
def logger_stats (counts : List Nat) (fitness : List Rat) (start : Nat) :
    (Rat × Rat) × (Rat × Rat) :=
  if 0 < counts.sum then
    ((npMean (counts_pop counts fitness.length start),
      npVar (counts_pop counts fitness.length start)),
     (npMean (fitness_pop fitness counts),
      npVar (fitness_pop fitness counts)))
  else ((0, 0), (0, 0))

/-- The exceptions numpy can raise during the setup phase of the three
simulation entry points. -/
inductive NumpyError where
  | negativeDimensions : NumpyError
  | valueError : NumpyError
  | indexOutOfBounds : NumpyError
deriving DecidableEq

/-- The numpy call `np.zeros(size)` for a possibly negative requested size
(ValueError: negative dimensions are not allowed). -/
def np_zeros (size : Int) : Except NumpyError (List Int) :=
  if size < 0 then Except.error NumpyError.negativeDimensions
  else Except.ok (List.replicate size.toNat 0)

/-- The numpy call `np.zeros((rows, cols))`, used for the logger matrices; only its
raising behaviour matters to the claims. -/
def np_zeros_mat (rows cols : Int) : Except NumpyError Unit :=
  if rows < 0 ∨ cols < 0 then Except.error NumpyError.negativeDimensions
  else Except.ok ()

/-- The numpy call `np.random.choice(k)` drawing a single value; raises ValueError when
`k ≤ 0`, otherwise the drawn value (externalized as `draw`) is returned. -/
def np_choice_scalar (k : Int) (draw : Nat) : Except NumpyError Nat :=
  if k ≤ 0 then Except.error NumpyError.valueError else Except.ok draw

/-- The statement `v[idx] = x` on a numpy 1-d int array, with Python index semantics. -/
def np_setitem (v : List Int) (idx : Int) (x : Int) : Except NumpyError (List Int) :=
  match npIndex v.length idx with
  | some i => Except.ok (v.set i x)
  | none => Except.error NumpyError.indexOutOfBounds

/-- Whether an `Except` computation completed without raising. -/
def exceptOk {ε α : Type} : Except ε α → Bool
  | Except.ok _ => true
  | Except.error _ => false

/-- The setup phase of `simulate_simple_landscape` (src/main.py, lines
32-46), i.e. everything before the generation loop: allocate the two
logger matrices, compute the fitness vector (pure float arithmetic on
`np.exp`/`np.power`, which never raises), allocate
`counts = np.zeros(l + 1, dtype=int)` and run `counts[0] = n`.  The
source performs no configuration validation; the mutation-rate and
fitness parameters are accepted unexamined, exactly as in the source. -/
def simulate_simple_landscape_setup (s eps : Rat) (l n : Int) (u_ben u_del : Rat)
    (generations : Int) : Except NumpyError (List Int) :=
  (np_zeros_mat generations 2).bind (fun _ =>
    (np_zeros_mat generations 2).bind (fun _ =>
      (np_zeros (l + 1)).bind (fun counts =>
        np_setitem counts 0 n)))

/-- The setup phase of `simulate_adjacent_landscape` (src/main.py, lines
55-78): six logger matrices, the fitness vector (never raises),
`counts = np.zeros(l_l + l_r + 2, dtype=int)` and
`counts[np.random.choice(l_l + l_r + 2)] = n` with the random initial
bin externalized as `init_bin`.  No configuration validation occurs. -/
def simulate_adjacent_landscape_setup (s_l s_r eps_l eps_r : Rat) (l_l l_r n : Int)
    (u_ben u_del : Rat) (generations : Int) (init_bin : Nat) : Except NumpyError (List Int) :=
  (np_zeros_mat generations 2).bind (fun _ =>
    (np_zeros_mat generations 2).bind (fun _ =>
      (np_zeros_mat generations 2).bind (fun _ =>
        (np_zeros_mat generations 2).bind (fun _ =>
          (np_zeros_mat generations 2).bind (fun _ =>
            (np_zeros_mat generations 2).bind (fun _ =>
              (np_zeros (l_l + l_r + 2)).bind (fun counts =>
                (np_choice_scalar (l_l + l_r + 2) init_bin).bind (fun j =>
                  np_setitem counts (j : Int) n))))))))

/-- The setup phase of `simulate_hybrid_landscape` (src/main.py, lines
104-130): six logger matrices, the fitness vector (never raises),
`counts = np.zeros(l_l + l_r + 1)` and `counts[l_l] = n`.  No
configuration validation occurs. -/
def simulate_hybrid_landscape_setup (s_l s_r eps_l eps_r : Rat) (l_l l_r n : Int)
    (u_ben u_del p_r : Rat) (generations : Int) : Except NumpyError (List Int) :=
  (np_zeros_mat generations 2).bind (fun _ =>
    (np_zeros_mat generations 2).bind (fun _ =>
      (np_zeros_mat generations 2).bind (fun _ =>
        (np_zeros_mat generations 2).bind (fun _ =>
          (np_zeros_mat generations 2).bind (fun _ =>
            (np_zeros_mat generations 2).bind (fun _ =>
              (np_zeros (l_l + l_r + 1)).bind (fun counts =>
                np_setitem counts l_l n)))))))

/-- The function `simple_landscape` (src/fitness_landscape.py, lines 34-40):
`fitness = np.exp(-s * np.power(k, 1 - eps))`, over the reals. -/
noncomputable def simple_landscape (s eps : Real) (k : Nat) : Real :=
  Real.exp (-s * Real.rpow (k : Real) (1 - eps))

theorem npIndex_lt {len : Nat} {idx : Int} {i : Nat} (h : npIndex len idx = some i) : i < len := by
  unfold npIndex at h
  split at h
  · simp only [Option.some.injEq] at h
    omega
  · split at h
    · simp only [Option.some.injEq] at h
      omega
    · exact absurd h (by simp)

theorem npIndex_coe {len b : Nat} (h : b < len) : npIndex len (b : Int) = some b := by
  unfold npIndex
  split
  · simp
  · omega

theorem sum_set_succ : ∀ (v : List Nat) (i : Nat), i < v.length →
    (v.set i (v.getD i 0 + 1)).sum = v.sum + 1 := by
  intro v
  induction v with
  | nil => intro i h; simp at h
  | cons hd tl ih =>
    intro i h
    cases i with
    | zero => simp [List.getD]; omega
    | succ j =>
      have hj : j < tl.length := by simpa using h
      simp only [List.set_cons_succ, List.getD_cons_succ, List.sum_cons, ih j hj]
      omega

theorem npIncr_some {v w : List Nat} {idx : Int} (h : npIncr v idx = some w) :
    w.sum = v.sum + 1 ∧ w.length = v.length := by
  unfold npIncr at h
  cases hx : npIndex v.length idx with
  | none => rw [hx] at h; exact absurd h (by simp)
  | some i =>
    rw [hx] at h
    have hi : i < v.length := npIndex_lt hx
    obtain rfl : v.set i (v.getD i 0 + 1) = w := by simpa using h
    exact ⟨sum_set_succ v i hi, List.length_set v i _⟩

theorem foldl_step_none {α : Type} (f : Option (List Nat) → α → Option (List Nat))
    (hnone : ∀ d, f none d = none) :
    ∀ (draws : List α), draws.foldl f none = none := by
  intro draws
  induction draws with
  | nil => rfl
  | cons d ds ih =>
    simp only [List.foldl_cons, hnone]
    exact ih

theorem foldl_step_sum {α : Type} (f : Option (List Nat) → α → Option (List Nat))
    (hnone : ∀ d, f none d = none)
    (hsum : ∀ v d w, f (some v) d = some w → w.sum = v.sum + 1 ∧ w.length = v.length) :
    ∀ (draws : List α) (init w : List Nat),
      draws.foldl f (some init) = some w →
      w.sum = init.sum + draws.length ∧ w.length = init.length := by
  intro draws
  induction draws with
  | nil =>
    intro init w h
    simp only [List.foldl_nil, Option.some.injEq] at h
    subst h
    simp
  | cons d ds ih =>
    intro init w h
    simp only [List.foldl_cons] at h
    cases hf : f (some init) d with
    | none =>
      rw [hf, foldl_step_none f hnone] at h
      exact absurd h (by simp)
    | some v =>
      rw [hf] at h
      have h1 := hsum init d v hf
      have h2 := ih v w h
      refine ⟨?_, ?_⟩
      · simp only [List.length_cons]
        omega
      · omega

theorem simpleStep_some {l : Nat} {v w : List Nat} {d : Draw}
    (h : simpleStep l (some v) d = some w) : w.sum = v.sum + 1 ∧ w.length = v.length := by
  simp only [simpleStep, Option.some_bind] at h
  exact npIncr_some h

theorem adjacentStep_some {l_l l_r : Nat} {v w : List Nat} {d : Draw}
    (h : adjacentStep l_l l_r (some v) d = some w) : w.sum = v.sum + 1 ∧ w.length = v.length := by
  simp only [adjacentStep, Option.some_bind] at h
  split at h
  · split at h
    · exact npIncr_some h
    · exact npIncr_some h
  · split at h
    · exact npIncr_some h
    · exact npIncr_some h

theorem hybridStep_some {l_l l_r : Nat} {v w : List Nat} {d : HDraw}
    (h : hybridStep l_l l_r (some v) d = some w) : w.sum = v.sum + 1 ∧ w.length = v.length := by
  simp only [hybridStep, Option.some_bind] at h
  split at h
  · exact npIncr_some h
  · split at h
    · exact npIncr_some h
    · exact npIncr_some h

/-- C1: for each of the three one-generation update functions, whenever a
bin-count vector is returned (no IndexError occurred), it sums exactly to
the number of newborns, i.e. the population size `n`; this holds for every
sequence of random draws. -/
theorem wright_fisher_counts_sum :
    (∀ (l : Nat) (draws : List Draw) (w : List Nat),
        simple_landscape_wright_fisher l draws = some w → w.sum = draws.length)
  ∧ (∀ (l_l l_r : Nat) (draws : List Draw) (w : List Nat),
        adjacent_landscape_wright_fisher l_l l_r draws = some w → w.sum = draws.length)
  ∧ (∀ (l_l l_r : Nat) (draws : List HDraw) (w : List Nat),
        hybrid_landscape_wright_fisher l_l l_r draws = some w → w.sum = draws.length) := by
  refine ⟨?_, ?_, ?_⟩
  · intro l draws w h
    have hs := foldl_step_sum (simpleStep l) (fun _ => rfl)
      (fun _ _ _ hh => simpleStep_some hh) draws (List.replicate (l + 1) 0) w h
    simpa using hs.1
  · intro l_l l_r draws w h
    have hs := foldl_step_sum (adjacentStep l_l l_r) (fun _ => rfl)
      (fun _ _ _ hh => adjacentStep_some hh) draws (List.replicate (l_l + l_r + 2) 0) w h
    simpa using hs.1
  · intro l_l l_r draws w h
    have hs := foldl_step_sum (hybridStep l_l l_r) (fun _ => rfl)
      (fun _ _ _ hh => hybridStep_some hh) draws (List.replicate (l_l + l_r + 1) 0) w h
    simpa using hs.1

/-- Witness for C1: a concrete run of each update function, with the
hypothesis discharged by evaluation. -/
theorem wright_fisher_counts_sum_witness :
    ([0, 1, 1] : List Nat).sum = ([⟨0, 0, 1⟩, ⟨0, 0, 5⟩] : List Draw).length
  ∧ ([0, 0, 0, 2, 0, 0] : List Nat).sum = ([⟨2, 0, 1⟩, ⟨2, 0, 2⟩] : List Draw).length
  ∧ ([0, 1, 0] : List Nat).sum = ([⟨1, 0, 3, false⟩] : List HDraw).length :=
  ⟨wright_fisher_counts_sum.1 2 [⟨0, 0, 1⟩, ⟨0, 0, 5⟩] [0, 1, 1] (by decide),
   wright_fisher_counts_sum.2.1 2 2 [⟨2, 0, 1⟩, ⟨2, 0, 2⟩] [0, 0, 0, 2, 0, 0] (by decide),
   wright_fisher_counts_sum.2.2 1 1 [⟨1, 0, 3, false⟩] [0, 1, 0] (by decide)⟩

theorem foldl_ext_step {α β : Type} (f g : β → α → β) (h : ∀ acc d, f acc d = g acc d) :
    ∀ (l : List α) (init : β), l.foldl f init = l.foldl g init := by
  intro l
  induction l with
  | nil => intro init; rfl
  | cons d ds ih =>
    intro init
    simp only [List.foldl_cons, h]
    exact ih _

theorem simpleStep_eq (l : Nat) (v : List Nat) (d : Draw) :
    simpleStep l (some v) d = npIncr v (simplePlaceSpec l d) := by
  simp only [simpleStep, Option.some_bind]
  congr 1
  unfold np_clip simplePlaceSpec
  omega

theorem adjacentStep_eq (l_l l_r : Nat) (v : List Nat) (d : Draw) :
    adjacentStep l_l l_r (some v) d = npIncr v (adjacentPlaceSpec l_l l_r d) := by
  simp only [adjacentStep, adjacentPlaceSpec, Option.some_bind]
  by_cases h1 : d.newborn ≤ l_l
  · simp only [if_pos h1]
    by_cases h2 : (l_l : Int) < (d.newborn : Int) - (d.mut_ben : Int) + (d.mut_del : Int)
    · simp only [if_pos h2]
    · simp only [if_neg h2]
  · simp only [if_neg h1]
    by_cases h2 : (d.newborn : Int) + (d.mut_ben : Int) - (d.mut_del : Int) ≤ (l_l : Int)
    · simp only [if_pos h2]
    · simp only [if_neg h2]

theorem hybridStep_peak (l_l l_r : Nat) (v : List Nat) (d : HDraw) (h : d.newborn = l_l) :
    hybridStep l_l l_r (some v) d = npIncr v (hybridPeakSpec l_l d) := by
  subst h
  simp only [hybridStep, hybridPeakSpec, peakM, Option.some_bind, lt_irrefl, if_false]

/-- C4: in the simple update every newborn with sampled bin `b` and
mutation draws `(mut_ben, mut_del)` is placed at
`clamp(b - mut_ben + mut_del, 0, L)` (the whole update equals the fold of
increments at the spec's placement), and any returned bin-count vector
has length `L + 1`. -/
theorem simple_update_clamp :
    (∀ (l : Nat) (draws : List Draw),
        simple_landscape_wright_fisher l draws =
          draws.foldl (fun acc d => acc.bind (fun v => npIncr v (simplePlaceSpec l d)))
            (some (List.replicate (l + 1) 0)))
  ∧ (∀ (l : Nat) (draws : List Draw) (w : List Nat),
        simple_landscape_wright_fisher l draws = some w → w.length = l + 1) := by
  constructor
  · intro l draws
    unfold simple_landscape_wright_fisher
    apply foldl_ext_step
    intro acc d
    cases acc with
    | none => rfl
    | some v => exact simpleStep_eq l v d
  · intro l draws w h
    have hs := foldl_step_sum (simpleStep l) (fun _ => rfl)
      (fun _ _ _ hh => simpleStep_some hh) draws (List.replicate (l + 1) 0) w h
    simpa using hs.2

/-- Witness for C4: a concrete run of the simple update, with the
hypothesis discharged by evaluation. -/
theorem simple_update_clamp_witness : ([0, 1, 1] : List Nat).length = 2 + 1 :=
  simple_update_clamp.2 2 [⟨0, 0, 1⟩, ⟨0, 0, 5⟩] [0, 1, 1] (by decide)

/-- C2: in the adjacent update every newborn is placed according to the
spec's valley-crossing rule (`adjacentPlaceSpec`): step by step and for
the whole fold, the code's placement equals the spec's; in particular
with `L_l = L_r = 2` a newborn at bin 2 with `mut_ben = 0` lands at bin 3
both for `mut_del = 1` and for `mut_del = 2` (crossing clamps to exactly
`L_l + 1`, not further). -/
theorem adjacent_valley_crossing :
    (∀ (l_l l_r : Nat) (v : List Nat) (d : Draw),
        adjacentStep l_l l_r (some v) d = npIncr v (adjacentPlaceSpec l_l l_r d))
  ∧ (∀ (l_l l_r : Nat) (draws : List Draw),
        adjacent_landscape_wright_fisher l_l l_r draws =
          draws.foldl (fun acc d => acc.bind (fun v => npIncr v (adjacentPlaceSpec l_l l_r d)))
            (some (List.replicate (l_l + l_r + 2) 0)))
  ∧ adjacentPlaceSpec 2 2 ⟨2, 0, 1⟩ = 3
  ∧ adjacentPlaceSpec 2 2 ⟨2, 0, 2⟩ = 3 := by
  refine ⟨adjacentStep_eq, ?_, by decide, by decide⟩
  intro l_l l_r draws
  unfold adjacent_landscape_wright_fisher
  apply foldl_ext_step
  intro acc d
  cases acc with
  | none => rfl
  | some v => exact adjacentStep_eq l_l l_r v d

/-- C3: in the hybrid update a newborn exactly at the peak bin `L_l` is
placed at the unclamped signed index `L_l + m` (coin success) or
`L_l - m` (coin failure) with `m = max(0, mut_del - mut_ben)`
(`hybridPeakSpec`); in particular with `L_l = L_r = 3`, `mut_del = 2`,
`mut_ben = 0` the newborn lands at bin 5 on the right path and bin 1 on
the left path, and `p_r = 1.0` forces the right path while `p_r = 0.0`
forces the left path. -/
theorem hybrid_peak_placement :
    (∀ (l_l l_r : Nat) (v : List Nat) (d : HDraw), d.newborn = l_l →
        hybridStep l_l l_r (some v) d = npIncr v (hybridPeakSpec l_l d))
  ∧ hybrid_landscape_wright_fisher 3 3 [⟨3, 0, 2, true⟩] = some [0, 0, 0, 0, 0, 1, 0]
  ∧ hybrid_landscape_wright_fisher 3 3 [⟨3, 0, 2, false⟩] = some [0, 1, 0, 0, 0, 0, 0]
  ∧ (∀ b : Bool, binomialSupport 1 b → b = true)
  ∧ (∀ b : Bool, binomialSupport 0 b → b = false) := by
  refine ⟨fun l_l l_r v d h => hybridStep_peak l_l l_r v d h, by decide, by decide, ?_, ?_⟩
  · intro b hb
    cases b with
    | false => exact absurd (hb.2 rfl) (lt_irrefl 1)
    | true => rfl
  · intro b hb
    cases b with
    | false => rfl
    | true => exact absurd (hb.1 rfl) (lt_irrefl 0)

/-- Witness for C3: the peak-branch equation applied at a concrete peak
newborn, plus the forced coin directions at p_r = 1 and p_r = 0. -/
theorem hybrid_peak_placement_witness :
    hybridStep 3 3 (some (List.replicate 7 0)) ⟨3, 0, 2, true⟩ =
      npIncr (List.replicate 7 0) (hybridPeakSpec 3 ⟨3, 0, 2, true⟩)
  ∧ true = true ∧ false = false :=
  ⟨hybrid_peak_placement.1 3 3 (List.replicate 7 0) ⟨3, 0, 2, true⟩ rfl,
   hybrid_peak_placement.2.2.2.1 true
     (by unfold binomialSupport; exact ⟨fun _ => by norm_num, fun h => (nomatch h)⟩),
   hybrid_peak_placement.2.2.2.2 false
     (by unfold binomialSupport; exact ⟨fun h => (nomatch h), fun _ => by norm_num⟩)⟩

/-- C8 counterexample: at the peak with `L_l = L_r = 1`, `mut_del = 5`,
`mut_ben = 0` the left path computes `m = 5 > L_l`, so the claim says the
individual is silently added at index `(L_l+L_r+1) + (L_l-m) = 3 + (-4) =
-1` with no error raised; in the code the negative index `L_l - m = -4`
is below `-(L_l+L_r+1) = -3`, so it does not wrap and an IndexError is
raised instead (the update returns no vector). -/
theorem peak_wraparound_counterexample :
    hybrid_landscape_wright_fisher 1 1 [⟨1, 0, 5, false⟩] = none := by decide

/-- C8 (amended): a newborn at the peak taking the left path with
`m = max(0, mut_del - mut_ben) > L_l` is silently added at the wrapped
index `(L_l+L_r+1) + (L_l-m)` with no error raised only while
`m ≤ 2*L_l + L_r + 1`; beyond that bound the negative index is out of
range even after wrapping and an IndexError is raised; taking the right
path with `L_l + m > L_l + L_r` always raises an IndexError. -/
theorem peak_wraparound :
    (∀ (l_l l_r : Nat) (v : List Nat) (d : HDraw),
      v.length = l_l + l_r + 1 → d.newborn = l_l → d.coin = false → (l_l : Int) < peakM d →
      (peakM d ≤ 2 * (l_l : Int) + (l_r : Int) + 1 →
        hybridStep l_l l_r (some v) d =
          some (v.set ((l_l : Int) + (l_r : Int) + 1 + ((l_l : Int) - peakM d)).toNat
            (v.getD ((l_l : Int) + (l_r : Int) + 1 + ((l_l : Int) - peakM d)).toNat 0 + 1)))
      ∧ (2 * (l_l : Int) + (l_r : Int) + 1 < peakM d →
        hybridStep l_l l_r (some v) d = none))
  ∧ (∀ (l_l l_r : Nat) (v : List Nat) (d : HDraw),
      v.length = l_l + l_r + 1 → d.newborn = l_l → d.coin = true →
      (l_l : Int) + (l_r : Int) < (l_l : Int) + peakM d →
      hybridStep l_l l_r (some v) d = none) := by
  constructor
  · intro l_l l_r v d hlen hnb hcoin hm
    rw [hybridStep_peak l_l l_r v d hnb]
    unfold hybridPeakSpec
    rw [hcoin]
    simp only [Bool.false_eq_true, if_false]
    unfold npIncr npIndex
    rw [hlen]
    constructor
    · intro hbound
      rw [if_neg (by push_cast; omega), if_pos (by push_cast; omega)]
      have hAB : ((l_l : Int) - peakM d + ((l_l + l_r + 1 : Nat) : Int)).toNat
          = ((l_l : Int) + (l_r : Int) + 1 + ((l_l : Int) - peakM d)).toNat := by
        push_cast
        omega
      simp only [Option.map_some', hAB]
    · intro hbound
      rw [if_neg (by push_cast; omega), if_neg (by push_cast; omega)]
      rfl
  · intro l_l l_r v d hlen hnb hcoin hm
    rw [hybridStep_peak l_l l_r v d hnb]
    unfold hybridPeakSpec
    rw [hcoin]
    simp only [if_true]
    unfold npIncr npIndex
    rw [hlen]
    have hm0 : 0 ≤ peakM d := le_max_left 0 _
    rw [if_neg (by push_cast; omega), if_neg (by push_cast; omega)]
    rfl

/-- Witness for C8 (amended): the wrap case (`m = 3` with `L_l = L_r = 1`
lands at index 1), the over-wrap IndexError case (`m = 5`), and the
right-path IndexError case (`m = 2` going right past `L_l + L_r`). -/
theorem peak_wraparound_witness :
    hybridStep 1 1 (some [0, 0, 0]) ⟨1, 0, 3, false⟩ =
      some ([0, 0, 0].set (((1 : Int) + (1 : Int) + 1 + ((1 : Int) - peakM ⟨1, 0, 3, false⟩)).toNat)
        ([0, 0, 0].getD (((1 : Int) + (1 : Int) + 1 + ((1 : Int) - peakM ⟨1, 0, 3, false⟩)).toNat) 0 + 1))
  ∧ hybridStep 1 1 (some [0, 0, 0]) ⟨1, 0, 5, false⟩ = none
  ∧ hybridStep 1 1 (some [0, 0, 0]) ⟨1, 0, 2, true⟩ = none :=
  ⟨(peak_wraparound.1 1 1 [0, 0, 0] ⟨1, 0, 3, false⟩ (by decide) rfl rfl (by decide)).1 (by decide),
   (peak_wraparound.1 1 1 [0, 0, 0] ⟨1, 0, 5, false⟩ (by decide) rfl rfl (by decide)).2 (by decide),
   peak_wraparound.2 1 1 [0, 0, 0] ⟨1, 0, 2, true⟩ (by decide) rfl rfl (by decide)⟩

theorem except_bind_ok {ε α β : Type} (a : α) (f : α → Except ε β) :
    (Except.ok (ε := ε) a).bind f = f a := rfl

/-- C5 counterexample: configurations with a negative mutation rate
(simple: u_del = -1/10; hybrid: u_ben = -1), a negative population size
(adjacent: n = -5), and even a negative landscape size (adjacent and
hybrid with l_l = -1, where the assignment `counts[l_l]` silently wraps
around to the last bin); contrary to the claim, every one of these
setups completes successfully and returns an initial count vector, so
nothing is rejected with a configuration error before the first
generation runs. -/
theorem setup_no_validation_counterexample :
    simulate_simple_landscape_setup (1/10) 0 5 100 0 (-1/10) 10 =
      Except.ok [100, 0, 0, 0, 0, 0]
  ∧ simulate_adjacent_landscape_setup (1/10) (1/10) (1/10) (-1/10) 2 2 (-5) 0 (1/10) 10 0 =
      Except.ok [-5, 0, 0, 0, 0, 0]
  ∧ simulate_hybrid_landscape_setup (1/10) (1/10) (1/10) (-1/10) 3 3 100 (-1) (1/10) (1/2) 10 =
      Except.ok [0, 0, 0, 100, 0, 0, 0]
  ∧ simulate_adjacent_landscape_setup (1/10) (1/10) (1/10) (-1/10) (-1) 2 100 0 (1/10) 10 0 =
      Except.ok [100, 0, 0]
  ∧ simulate_hybrid_landscape_setup (1/10) (1/10) (1/10) (-1/10) (-1) 3 100 0 (1/10) (1/2) 10 =
      Except.ok [0, 0, 100] :=
  ⟨rfl, rfl, rfl, rfl, rfl⟩

/-- C5 (amended): no simulation entry point validates its configuration,
and none reliably rejects an invalid one at setup.  For every population
size `n` (negative included) and all mutation rates (negative included),
the setup phase of each entry point completes without error whenever the
landscape sizes and generation count are non-negative (and, for the
adjacent landscape, the random initial bin is in range); failures from
invalid `n`, `u_ben`, `u_del`, if any, can only surface later inside the
generation loop.  Negative landscape sizes are not checked either: the
adjacent and hybrid entry points complete setup silently with l_l = -1
(the assignment `counts[l_l]` wraps around to the last bin), while the
simple entry point fails during setup only through incidental numpy
array-construction/indexing errors, never a configuration check. -/
theorem setup_no_validation :
    (∀ (s eps u_ben u_del : Rat) (l n generations : Int),
        0 ≤ l → 0 ≤ generations →
        exceptOk (simulate_simple_landscape_setup s eps l n u_ben u_del generations) = true)
  ∧ (∀ (s_l s_r eps_l eps_r u_ben u_del : Rat) (l_l l_r n generations : Int) (init_bin : Nat),
        0 ≤ l_l → 0 ≤ l_r → (init_bin : Int) < l_l + l_r + 2 → 0 ≤ generations →
        exceptOk (simulate_adjacent_landscape_setup s_l s_r eps_l eps_r l_l l_r n u_ben u_del
          generations init_bin) = true)
  ∧ (∀ (s_l s_r eps_l eps_r u_ben u_del p_r : Rat) (l_l l_r n generations : Int),
        0 ≤ l_l → 0 ≤ l_r → 0 ≤ generations →
        exceptOk (simulate_hybrid_landscape_setup s_l s_r eps_l eps_r l_l l_r n u_ben u_del p_r
          generations) = true)
  ∧ (∀ (s_l s_r eps_l eps_r u_ben u_del : Rat) (l_r n generations : Int) (init_bin : Nat),
        0 ≤ l_r → (init_bin : Int) < l_r + 1 → 0 ≤ generations →
        exceptOk (simulate_adjacent_landscape_setup s_l s_r eps_l eps_r (-1) l_r n u_ben u_del
          generations init_bin) = true)
  ∧ (∀ (s_l s_r eps_l eps_r u_ben u_del p_r : Rat) (l_r n generations : Int),
        1 ≤ l_r → 0 ≤ generations →
        exceptOk (simulate_hybrid_landscape_setup s_l s_r eps_l eps_r (-1) l_r n u_ben u_del p_r
          generations) = true)
  ∧ (∀ (s eps u_ben u_del : Rat) (l n generations : Int),
        l < 0 → 0 ≤ generations →
        exceptOk (simulate_simple_landscape_setup s eps l n u_ben u_del generations) = false) := by
  refine ⟨?_, ?_, ?_, ?_, ?_, ?_⟩
  · intro s eps u_ben u_del l n gens hl hg
    unfold simulate_simple_landscape_setup np_zeros_mat np_zeros np_setitem npIndex
    rw [if_neg (by omega), if_neg (by omega)]
    simp only [except_bind_ok, List.length_replicate]
    rw [if_pos (by omega)]
    rfl
  · intro s_l s_r eps_l eps_r u_ben u_del l_l l_r n gens init_bin hll hlr hinit hg
    unfold simulate_adjacent_landscape_setup np_zeros_mat np_zeros np_choice_scalar np_setitem
      npIndex
    rw [if_neg (by omega), if_neg (by omega)]
    simp only [except_bind_ok, List.length_replicate]
    rw [if_neg (by omega)]
    simp only [except_bind_ok]
    rw [if_pos (by omega)]
    rfl
  · intro s_l s_r eps_l eps_r u_ben u_del p_r l_l l_r n gens hll hlr hg
    unfold simulate_hybrid_landscape_setup np_zeros_mat np_zeros np_setitem npIndex
    rw [if_neg (by omega), if_neg (by omega)]
    simp only [except_bind_ok, List.length_replicate]
    rw [if_pos (by omega)]
    rfl
  · intro s_l s_r eps_l eps_r u_ben u_del l_r n gens init_bin hlr hinit hg
    unfold simulate_adjacent_landscape_setup np_zeros_mat np_zeros np_choice_scalar np_setitem
      npIndex
    rw [if_neg (by omega), if_neg (by omega)]
    simp only [except_bind_ok, List.length_replicate]
    rw [if_neg (by omega)]
    simp only [except_bind_ok]
    rw [if_pos (by omega)]
    rfl
  · intro s_l s_r eps_l eps_r u_ben u_del p_r l_r n gens hlr hg
    unfold simulate_hybrid_landscape_setup np_zeros_mat np_zeros np_setitem npIndex
    rw [if_neg (by omega), if_neg (by omega)]
    simp only [except_bind_ok, List.length_replicate]
    rw [if_neg (by omega), if_pos (by omega)]
    rfl
  · intro s eps u_ben u_del l n gens hl hg
    unfold simulate_simple_landscape_setup np_zeros_mat np_zeros np_setitem npIndex
    rw [if_neg (show ¬(gens < 0 ∨ (2:Int) < 0) by omega)]
    simp only [except_bind_ok, List.length_replicate]
    by_cases hl2 : l + 1 < 0
    · rw [if_pos hl2]
      rfl
    · rw [if_neg hl2]
      simp only [except_bind_ok, List.length_replicate]
      rw [if_neg (by omega), if_neg (by omega)]
      rfl

/-- Witness for C5 (amended): the amended theorem applied at concrete
invalid configurations, including the negative landscape sizes that
complete setup silently (adjacent and hybrid with l_l = -1) and one
(simple with l = -3) that fails with an incidental array error. -/
theorem setup_no_validation_witness :
    exceptOk (simulate_simple_landscape_setup (1/10) 0 5 100 0 (-1/10) 10) = true
  ∧ exceptOk (simulate_adjacent_landscape_setup (1/10) (1/10) (1/10) (-1/10) 2 2 (-5) 0 (1/10)
      10 0) = true
  ∧ exceptOk (simulate_hybrid_landscape_setup (1/10) (1/10) (1/10) (-1/10) 3 3 100 (-1) (1/10)
      (1/2) 10) = true
  ∧ exceptOk (simulate_adjacent_landscape_setup (1/10) (1/10) (1/10) (-1/10) (-1) 2 100 0 (1/10)
      10 0) = true
  ∧ exceptOk (simulate_hybrid_landscape_setup (1/10) (1/10) (1/10) (-1/10) (-1) 3 100 0 (1/10)
      (1/2) 10) = true
  ∧ exceptOk (simulate_simple_landscape_setup (1/10) 0 (-3) 100 0 (1/10) 10) = false :=
  ⟨setup_no_validation.1 (1/10) 0 0 (-1/10) 5 100 10 (by norm_num) (by norm_num),
   setup_no_validation.2.1 (1/10) (1/10) (1/10) (-1/10) 0 (1/10) 2 2 (-5) 10 0 (by norm_num)
     (by norm_num) (by norm_num) (by norm_num),
   setup_no_validation.2.2.1 (1/10) (1/10) (1/10) (-1/10) (-1) (1/10) (1/2) 3 3 100 10
     (by norm_num) (by norm_num) (by norm_num),
   setup_no_validation.2.2.2.1 (1/10) (1/10) (1/10) (-1/10) 0 (1/10) 2 100 10 0 (by norm_num)
     (by norm_num) (by norm_num),
   setup_no_validation.2.2.2.2.1 (1/10) (1/10) (1/10) (-1/10) 0 (1/10) (1/2) 3 100 10
     (by norm_num) (by norm_num),
   setup_no_validation.2.2.2.2.2 (1/10) 0 0 (1/10) (-3) 100 10 (by norm_num) (by norm_num)⟩

theorem sum_eq_zero_of_nonneg {xs : List Rat} (h : ∀ x ∈ xs, 0 ≤ x) (h0 : xs.sum = 0) :
    ∀ x ∈ xs, x = 0 := by
  induction xs with
  | nil => intro x hx; exact absurd hx (List.not_mem_nil x)
  | cons a as ih =>
    intro x hx
    have ha : 0 ≤ a := h a (List.mem_cons_self a as)
    have has : 0 ≤ as.sum := List.sum_nonneg (fun y hy => h y (List.mem_cons_of_mem a hy))
    simp only [List.sum_cons] at h0
    have ha0 : a = 0 := by linarith
    have hs0 : as.sum = 0 := by linarith
    rcases List.mem_cons.mp hx with rfl | hx2
    · exact ha0
    · exact ih (fun y hy => h y (List.mem_cons_of_mem a hy)) hs0 x hx2

/-- C6 counterexample: with one bin of count 1 and fitness 0, the total
fitness mass is zero; contrary to the claim, the sampling helper does not
fail with a clear error signal: it has no error path at all, and computes
and returns the probability vector `[0/0] = [NaN]`, silently propagating
the NaN to the downstream sampler. -/
theorem zero_mass_nan_counterexample : fitness_prob [1] [0] = [NFloat.nan] := by
  norm_num [fitness_prob, fitness_mass, fdiv]

/-- C6 (amended): when the total fitness mass is positive, the
probability assigned to bin i equals `count[i] * fitness[i]` divided by
the total, as claimed; but when the total fitness mass is zero (with the
non-negative per-bin masses a real population produces), the helper does
not fail: every probability entry is the NaN resulting from 0/0,
returned without any error signal. -/
theorem fitness_prob_spec :
    (∀ (counts fitness : List Rat),
        0 < (fitness_mass counts fitness).sum →
        fitness_prob counts fitness =
          (fitness_mass counts fitness).map
            (fun mss => NFloat.val (mss / (fitness_mass counts fitness).sum)))
  ∧ (∀ (counts fitness : List Rat),
        (∀ mss ∈ fitness_mass counts fitness, 0 ≤ mss) →
        (fitness_mass counts fitness).sum = 0 →
        ∀ p ∈ fitness_prob counts fitness, p = NFloat.nan) := by
  constructor
  · intro counts fitness h
    unfold fitness_prob
    apply List.map_congr_left
    intro mss hm
    unfold fdiv
    rw [if_neg (ne_of_gt h)]
  · intro counts fitness hnn h0 p hp
    unfold fitness_prob at hp
    rcases List.mem_map.mp hp with ⟨mss, hm, rfl⟩
    have hz : mss = 0 := sum_eq_zero_of_nonneg hnn h0 mss hm
    rw [hz, h0]
    unfold fdiv
    rw [if_pos rfl, if_pos rfl]

/-- Witness for C6 (amended): the positive-total formula evaluated at
counts [1, 1], fitness [1, 3], and the NaN conclusion evaluated at the
zero-mass input counts [1], fitness [0]. -/
theorem fitness_prob_spec_witness :
    fitness_prob [1, 1] [1, 3] =
      (fitness_mass [1, 1] [1, 3]).map
        (fun mss => NFloat.val (mss / (fitness_mass [1, 1] [1, 3]).sum))
  ∧ NFloat.nan = NFloat.nan :=
  ⟨fitness_prob_spec.1 [1, 1] [1, 3] (by norm_num [fitness_mass]),
   fitness_prob_spec.2 [1] [0] (by norm_num [fitness_mass]) (by norm_num [fitness_mass])
     NFloat.nan (by norm_num [fitness_prob, fitness_mass, fdiv])⟩

theorem countsQ_set_replicate (len b n : Nat) :
    countsQ ((List.replicate len 0).set b n) =
      (List.replicate len (0:Rat)).set b (n:Rat) := by
  unfold countsQ
  rw [List.map_set]
  congr 1
  simp

theorem choiceSupport_degenerate {len b n k : Nat} {fq : List Rat}
    (h : choiceSupport (fitness_prob (countsQ ((List.replicate len 0).set b n)) fq) k) :
    k = b := by
  by_contra hk
  obtain ⟨q, hq, hq0⟩ := h
  rw [countsQ_set_replicate] at hq
  unfold fitness_prob at hq
  rw [List.getElem?_map] at hq
  have hck : ((List.replicate len (0:Rat)).set b (n:Rat))[k]? = some 0 ∨
      ((List.replicate len (0:Rat)).set b (n:Rat))[k]? = none := by
    rw [List.getElem?_set_ne (Ne.symm hk), List.getElem?_replicate]
    split
    · exact Or.inl rfl
    · exact Or.inr rfl
  have hmk : (fitness_mass ((List.replicate len (0:Rat)).set b (n:Rat)) fq)[k]? = some 0 ∨
      (fitness_mass ((List.replicate len (0:Rat)).set b (n:Rat)) fq)[k]? = none := by
    unfold fitness_mass
    rw [List.getElem?_zipWith]
    rcases hck with hc | hc <;> rw [hc]
    · cases hf : fq[k]? with
      | none => right; rfl
      | some f => left; simp
    · right; rfl
  rcases hmk with hm | hm
  · rw [hm] at hq
    simp only [Option.map_some', Option.some.injEq] at hq
    unfold fdiv at hq
    by_cases ht :
        (fitness_mass ((List.replicate len (0:Rat)).set b (n:Rat)) fq).sum = 0
    · rw [if_pos ht, if_pos rfl] at hq
      exact (nomatch hq)
    · rw [if_neg ht] at hq
      have hq2 : (0:Rat) / (fitness_mass ((List.replicate len (0:Rat)).set b (n:Rat)) fq).sum
          = q := by injection hq
      rw [zero_div] at hq2
      rw [← hq2] at hq0
      exact lt_irrefl 0 hq0
  · rw [hm] at hq
    exact (nomatch hq)

theorem poissonSupport_zero {k : Nat} (h : poissonSupport 0 k) : k = 0 := by
  rcases h with h | h
  · exact absurd h (lt_irrefl 0)
  · exact h.2

theorem set_getD_self : ∀ (v : List Nat) (i : Nat), i < v.length → v.set i (v.getD i 0) = v := by
  intro v
  induction v with
  | nil => intro i h; simp at h
  | cons hd tl ih =>
    intro i h
    cases i with
    | zero => simp [List.getD]
    | succ j =>
      simp only [List.set_cons_succ, List.getD_cons_succ]
      rw [ih j (by simpa using h)]

theorem getD_set_self : ∀ (v : List Nat) (i a : Nat), i < v.length →
    (v.set i a).getD i 0 = a := by
  intro v
  induction v with
  | nil => intro i a h; simp at h
  | cons hd tl ih =>
    intro i a h
    cases i with
    | zero => simp [List.getD]
    | succ j =>
      simp only [List.set_cons_succ, List.getD_cons_succ]
      exact ih j a (by simpa using h)

theorem getD_replicate_zero (len b : Nat) : (List.replicate len (0:Nat)).getD b 0 = 0 := by
  unfold List.getD
  simp [List.getElem?_replicate]
  split <;> simp

theorem foldl_incr_const {α : Type} (f : Option (List Nat) → α → Option (List Nat)) (b : Nat) :
    ∀ (draws : List α) (init : List Nat),
      (∀ v (d : α), d ∈ draws → f (some v) d = npIncr v (b : Int)) →
      b < init.length →
      draws.foldl f (some init) = some (init.set b (init.getD b 0 + draws.length)) := by
  intro draws
  induction draws with
  | nil =>
    intro init hstep hb
    simp only [List.foldl_nil, List.length_nil, Nat.add_zero]
    rw [set_getD_self init b hb]
  | cons d ds ih =>
    intro init hstep hb
    simp only [List.foldl_cons]
    rw [hstep init d (List.mem_cons_self d ds)]
    unfold npIncr
    rw [npIndex_coe hb]
    simp only [Option.map_some']
    rw [ih (init.set b (init.getD b 0 + 1))
      (fun v d2 hd2 => hstep v d2 (List.mem_cons_of_mem d hd2))
      (by rw [List.length_set]; exact hb)]
    have harith : init.getD b 0 + 1 + ds.length = init.getD b 0 + (d :: ds).length := by
      rw [List.length_cons]
      omega
    rw [List.set_set, getD_set_self init b _ hb, harith]

theorem simpleStep_at_b {l b : Nat} (hb : b ≤ l) (v : List Nat) (d : Draw)
    (hn : d.newborn = b) (h1 : d.mut_ben = 0) (h2 : d.mut_del = 0) :
    simpleStep l (some v) d = npIncr v (b : Int) := by
  simp only [simpleStep, Option.some_bind, hn, h1, h2]
  congr 1
  unfold np_clip
  push_cast
  omega

theorem adjacentStep_at_b {l_l l_r b : Nat} (hb : b < l_l + l_r + 2) (v : List Nat) (d : Draw)
    (hn : d.newborn = b) (h1 : d.mut_ben = 0) (h2 : d.mut_del = 0) :
    adjacentStep l_l l_r (some v) d = npIncr v (b : Int) := by
  simp only [adjacentStep, Option.some_bind, hn, h1, h2]
  by_cases hc : b ≤ l_l
  · rw [if_pos hc, if_neg (by push_cast; omega)]
    congr 1
  · rw [if_neg hc, if_neg (by push_cast; omega)]
    congr 1
    push_cast
    omega

theorem hybridStep_at_b {l_l l_r b : Nat} (hb : b < l_l + l_r + 1) (v : List Nat) (d : HDraw)
    (hn : d.newborn = b) (h1 : d.mut_ben = 0) (h2 : d.mut_del = 0) :
    hybridStep l_l l_r (some v) d = npIncr v (b : Int) := by
  simp only [hybridStep, Option.some_bind, hn, h1, h2]
  rcases Nat.lt_trichotomy b l_l with hc | hc | hc
  · rw [if_pos hc]
    congr 1
    push_cast
    omega
  · rw [if_neg (by omega), if_neg (by omega)]
    congr 1
    split <;> (push_cast; omega)
  · rw [if_neg (by omega), if_pos hc]
    congr 1
    push_cast
    omega

/-- C7: for each of the three update functions, if the input count vector
places all `n` individuals in a single bin `b` whose fitness is positive
and both mutation rates are zero, then for every possible sequence of
random draws (newborn bins in the support of the fitness-weighted
distribution, mutation counts in the support of Poisson(0), either coin
value) the returned bin-count vector equals the input vector. -/
theorem zero_mutation_fixed_point :
    (∀ (l b n : Nat) (fq : List Rat) (draws : List Draw),
        b ≤ l → 0 < fq.getD b 0 → draws.length = n →
        (∀ d ∈ draws,
          choiceSupport (fitness_prob (countsQ ((List.replicate (l + 1) 0).set b n)) fq)
            d.newborn
          ∧ poissonSupport 0 d.mut_ben ∧ poissonSupport 0 d.mut_del) →
        simple_landscape_wright_fisher l draws = some ((List.replicate (l + 1) 0).set b n))
  ∧ (∀ (l_l l_r b n : Nat) (fq : List Rat) (draws : List Draw),
        b < l_l + l_r + 2 → 0 < fq.getD b 0 → draws.length = n →
        (∀ d ∈ draws,
          choiceSupport (fitness_prob (countsQ ((List.replicate (l_l + l_r + 2) 0).set b n)) fq)
            d.newborn
          ∧ poissonSupport 0 d.mut_ben ∧ poissonSupport 0 d.mut_del) →
        adjacent_landscape_wright_fisher l_l l_r draws =
          some ((List.replicate (l_l + l_r + 2) 0).set b n))
  ∧ (∀ (l_l l_r b n : Nat) (fq : List Rat) (draws : List HDraw),
        b < l_l + l_r + 1 → 0 < fq.getD b 0 → draws.length = n →
        (∀ d ∈ draws,
          choiceSupport (fitness_prob (countsQ ((List.replicate (l_l + l_r + 1) 0).set b n)) fq)
            d.newborn
          ∧ poissonSupport 0 d.mut_ben ∧ poissonSupport 0 d.mut_del) →
        hybrid_landscape_wright_fisher l_l l_r draws =
          some ((List.replicate (l_l + l_r + 1) 0).set b n)) := by
  refine ⟨?_, ?_, ?_⟩
  · intro l b n fq draws hb hf hlen hdraws
    unfold simple_landscape_wright_fisher
    have hblen : b < (List.replicate (l + 1) (0:Nat)).length := by
      rw [List.length_replicate]
      omega
    have hfold := foldl_incr_const (simpleStep l) b draws (List.replicate (l + 1) 0)
      (fun v d hd =>
        simpleStep_at_b hb v d (choiceSupport_degenerate (hdraws d hd).1)
          (poissonSupport_zero (hdraws d hd).2.1) (poissonSupport_zero (hdraws d hd).2.2))
      hblen
    rw [hfold, getD_replicate_zero, hlen, Nat.zero_add]
  · intro l_l l_r b n fq draws hb hf hlen hdraws
    unfold adjacent_landscape_wright_fisher
    have hblen : b < (List.replicate (l_l + l_r + 2) (0:Nat)).length := by
      rw [List.length_replicate]
      omega
    have hfold := foldl_incr_const (adjacentStep l_l l_r) b draws
      (List.replicate (l_l + l_r + 2) 0)
      (fun v d hd =>
        adjacentStep_at_b hb v d (choiceSupport_degenerate (hdraws d hd).1)
          (poissonSupport_zero (hdraws d hd).2.1) (poissonSupport_zero (hdraws d hd).2.2))
      hblen
    rw [hfold, getD_replicate_zero, hlen, Nat.zero_add]
  · intro l_l l_r b n fq draws hb hf hlen hdraws
    unfold hybrid_landscape_wright_fisher
    have hblen : b < (List.replicate (l_l + l_r + 1) (0:Nat)).length := by
      rw [List.length_replicate]
      omega
    have hfold := foldl_incr_const (hybridStep l_l l_r) b draws
      (List.replicate (l_l + l_r + 1) 0)
      (fun v d hd =>
        hybridStep_at_b hb v d (choiceSupport_degenerate (hdraws d hd).1)
          (poissonSupport_zero (hdraws d hd).2.1) (poissonSupport_zero (hdraws d hd).2.2))
      hblen
    rw [hfold, getD_replicate_zero, hlen, Nat.zero_add]

/-- Witness for C7: the fixed point evaluated concretely for each update
function, with all support hypotheses discharged at explicit inputs. -/
theorem zero_mutation_fixed_point_witness :
    simple_landscape_wright_fisher 1 [⟨0, 0, 0⟩, ⟨0, 0, 0⟩] =
      some ((List.replicate 2 0).set 0 2)
  ∧ adjacent_landscape_wright_fisher 0 0 [⟨0, 0, 0⟩] = some ((List.replicate 2 0).set 0 1)
  ∧ hybrid_landscape_wright_fisher 0 0 [⟨0, 0, 0, true⟩] =
      some ((List.replicate 1 0).set 0 1) :=
  ⟨zero_mutation_fixed_point.1 1 0 2 [1, 1] [⟨0, 0, 0⟩, ⟨0, 0, 0⟩] (by norm_num)
    (by norm_num [List.getD]) rfl
    (by
      intro d hd
      have hd2 : d = ⟨0, 0, 0⟩ := by
        rcases List.mem_cons.mp hd with h | h
        · exact h
        · rcases List.mem_cons.mp h with h | h
          · exact h
          · exact absurd h (List.not_mem_nil d)
      subst hd2
      refine ⟨⟨1, ?_, by norm_num⟩, Or.inr ⟨rfl, rfl⟩, Or.inr ⟨rfl, rfl⟩⟩
      norm_num [fitness_prob, fitness_mass, countsQ, fdiv, List.replicate]),
   zero_mutation_fixed_point.2.1 0 0 0 1 [1, 1] [⟨0, 0, 0⟩] (by norm_num)
    (by norm_num [List.getD]) rfl
    (by
      intro d hd
      have hd2 : d = ⟨0, 0, 0⟩ := by
        rcases List.mem_cons.mp hd with h | h
        · exact h
        · exact absurd h (List.not_mem_nil d)
      subst hd2
      refine ⟨⟨1, ?_, by norm_num⟩, Or.inr ⟨rfl, rfl⟩, Or.inr ⟨rfl, rfl⟩⟩
      norm_num [fitness_prob, fitness_mass, countsQ, fdiv, List.replicate]),
   zero_mutation_fixed_point.2.2 0 0 0 1 [1] [⟨0, 0, 0, true⟩] (by norm_num)
    (by norm_num [List.getD]) rfl
    (by
      intro d hd
      have hd2 : d = ⟨0, 0, 0, true⟩ := by
        rcases List.mem_cons.mp hd with h | h
        · exact h
        · exact absurd h (List.not_mem_nil d)
      subst hd2
      refine ⟨⟨1, ?_, by norm_num⟩, Or.inr ⟨rfl, rfl⟩, Or.inr ⟨rfl, rfl⟩⟩
      norm_num [fitness_prob, fitness_mass, countsQ, fdiv, List.replicate])⟩

/-- C9: the simple-landscape fitness `exp(-s * k ** (1 - eps))` is
monotonically non-increasing in the mutation count k whenever s > 0 and
eps < 1, over the whole landscape 0 ≤ k ≤ L (in particular for L = 5,
s = 0.1, eps = 0). -/
theorem simple_landscape_monotone (s eps : Real) (L k1 k2 : Nat)
    (hs : 0 < s) (heps : eps < 1) (h12 : k1 ≤ k2) (hL : k2 ≤ L) :
    simple_landscape s eps k2 ≤ simple_landscape s eps k1 := by
  unfold simple_landscape
  rw [Real.exp_le_exp]
  have hrp : Real.rpow (k1 : Real) (1 - eps) ≤ Real.rpow (k2 : Real) (1 - eps) :=
    Real.rpow_le_rpow (by positivity) (by exact_mod_cast h12) (by linarith)
  have hmul := mul_le_mul_of_nonneg_left hrp (le_of_lt hs)
  linarith

/-- Witness for C9: the claim's particular parameters s = 0.1, eps = 0,
L = 5, at k = 2 ≤ 3. -/
theorem simple_landscape_monotone_witness :
    simple_landscape (1/10) 0 3 ≤ simple_landscape (1/10) 0 2 :=
  simple_landscape_monotone (1/10) 0 5 2 3 (by norm_num) (by norm_num) (by norm_num) (by norm_num)

/-- C10: on a bin-count vector summing to zero the logger records
(0.0, 0.0) for both the count statistics and the fitness statistics for
that generation: the guard `np.sum(counts) > 0` fails, so the else
branch writes the zeros and the NaN-producing mean/variance of an empty
population is never computed. -/
theorem logger_zero_population (counts : List Nat) (fitness : List Rat) (start : Nat)
    (h : counts.sum = 0) : logger_stats counts fitness start = ((0, 0), (0, 0)) := by
  unfold logger_stats
  rw [if_neg (by omega)]

/-- Witness for C10: a concrete all-zero count vector. -/
theorem logger_zero_population_witness :
    logger_stats [0, 0, 0] [1, 2, 3] 0 = ((0, 0), (0, 0)) :=
  logger_zero_population [0, 0, 0] [1, 2, 3] 0 (by decide)
